import Mathlib

/-!
Shallow embedding of the analysis core of `saego_2025app.py` (repository
`saego_2025`): the keyword-based column resolver (`find_similar_columns`),
the numeric-coercion / null-row-dropping data cleaning, the per-school
grouped statistics table of `school_statistics`, the table filter and CSV
export of that view, and the Pearson-correlation interpretation helpers
(`interpretar_correlacao_simples`, `interpretar_correlacao_detalhada`,
`classificar_forca_correlacao`).

Modelling conventions:
- pandas cell values are `Cell`: a (finite) rational number, a text value,
  or the missing marker `NaN`/`None` (constructor `null`).  Floating-point
  numbers are modelled as rationals.
- `pd.to_numeric(..., errors='coerce')` is parameterised by an arbitrary
  `parse : String → Option ℚ` describing which text parses as a number;
  every theorem below holds for every such parser.
- Sorting (pandas `sort_values`) is modelled by insertion sort.  pandas'
  `groupby(sort=True)` additionally sorts the group keys, but the
  per-school table is re-sorted by mean descending immediately afterwards,
  so the key order only influences tie-breaking, which the program leaves
  unspecified; group keys are therefore kept in first-occurrence order.
- the `Desvio_Padrão` column holds the *square* of the sample standard
  deviation (the sample variance, denominator `n - 1`), since the square
  root of a rational is irrational in general; the column is `none`
  exactly where pandas' `std` is `NaN`.  Claims only inspect this column
  for definedness, never for its value.
- `Char.toLower` lowercases ASCII letters only; Python's `str.lower` also
  lowercases accented letters.  The spec itself notes that diacritics are
  not normalised; all concrete scenarios below are ASCII.
-/

namespace Saego

/-! ## Column resolver (`find_similar_columns`, lines 55-64) -/

/-- Bool test that `needle` occurs at the head of `hay` (lists of chars). -/
def matchesAt : List Char → List Char → Bool
  | [], _ => true
  | _ :: _, [] => false
  | a :: as, b :: bs => a == b && matchesAt as bs

/-- Bool test that `needle` occurs contiguously somewhere in `hay`,
Python's `needle in hay` on strings. -/
def containsChars (needle : List Char) : List Char → Bool
  | [] => matchesAt needle []
  | b :: bs => matchesAt needle (b :: bs) || containsChars needle bs

/-- Python's `s.lower()` on the character list of a string (ASCII letters). -/
def lowerChars (s : String) : List Char := s.toList.map Char.toLower

/-- One keyword test of the source's inner loop:
`keyword.lower() in col_lower`. -/
def keywordIn (col keyword : String) : Bool :=
  containsChars (lowerChars keyword) (lowerChars col)

/-- Predicate of the source's inner `for keyword in keywords` loop with its
`break`: the column is appended iff some keyword matches. -/
def colMatches (keywords : List String) (col : String) : Bool :=
  keywords.any (fun keyword => keywordIn col keyword)

/-- `find_similar_columns(data, keywords)` (lines 55-64): all column names
whose lowercased name contains some lowercased keyword, in original column
order, each column appended at most once (the `break`). -/
def find_similar_columns (columns keywords : List String) : List String :=
  columns.filter (colMatches keywords)

/-- Role resolution as performed by every caller (e.g. lines 107-113):
the first entry of `find_similar_columns`, or none when the list is empty
(manual selection is then requested, out of scope). -/
def resolveRole (columns keywords : List String) : Option String :=
  (find_similar_columns columns keywords).head?

/-! ## Cells and data cleaning (lines 116-135, 419-429, 876-888) -/

/-- One pandas cell: a (finite) numeric value, a text value, or the
missing marker (`NaN`). -/
inductive Cell : Type
  | num (q : ℚ)
  | str (s : String)
  | null
deriving DecidableEq, Repr

/-- `pd.to_numeric(·, errors='coerce')` on one cell: numbers pass through,
text is parsed, anything that fails to parse becomes the missing marker.
Total function: the coercion never raises. -/
def coerceCell (parse : String → Option ℚ) : Cell → Cell
  | .num q => .num q
  | .str s =>
      match parse s with
      | some q => .num q
      | none => .null
  | .null => .null

/-- Numeric reading of a cell, `none` if the cell is not numeric. -/
def cellNum? : Cell → Option ℚ
  | .num q => some q
  | _ => none

/-- One raw row restricted to the selected columns: the grouping-column
cell (a label or missing) and one cell per metric column. -/
structure RawRow : Type where
  group : Option String
  metrics : List Cell
deriving DecidableEq, Repr

/-- Numeric coercion applied to every metric cell of a row (lines 120-126:
only metric columns are coerced, the grouping column is untouched). -/
def coerceRow (parse : String → Option ℚ) (r : RawRow) : RawRow :=
  ⟨r.group, r.metrics.map (coerceCell parse)⟩

/-- A row survives `dropna()` iff its group label is present and every
metric cell is numeric. -/
def rowValid (r : RawRow) : Bool :=
  r.group.isSome && r.metrics.all (fun c => (cellNum? c).isSome)

/-- The cleaning step (lines 118-131): select the group/metric columns,
coerce the metric columns to numeric, drop rows containing a missing
value.  Total function: cleaning never raises. -/
def cleanFrame (parse : String → Option ℚ) (rows : List RawRow) : List RawRow :=
  (rows.map (coerceRow parse)).filter rowValid

/-- `initial_count` (line 129). -/
def rows_before (rows : List RawRow) : ℕ := rows.length

/-- `final_count` (line 131). -/
def rows_after (parse : String → Option ℚ) (rows : List RawRow) : ℕ :=
  (cleanFrame parse rows).length

/-- `initial_count - final_count` (line 135), the reported removed-row
count. -/
def rows_removed (parse : String → Option ℚ) (rows : List RawRow) : ℕ :=
  rows_before rows - rows_after parse rows

/-! ## Float-refined cells (lines 116-131 again, keeping infinities)

The rational `Cell` model above cannot represent the IEEE infinities that
`pd.read_csv` and `pd.to_numeric` produce for text such as "inf": those
parse to a *non-missing* infinite float, and `dropna()` does not drop
them.  The following refinement of the same cleaning code (lines 118-131)
keeps a float64 numeric value as either a finite rational or an infinity,
so that the fate of infinite values under cleaning can be stated. -/

/-- A float64 numeric value: a finite rational or an infinity.  (`NaN` is
the missing marker, `CellF.null`, not an `FNum`.) -/
inductive FNum : Type
  | fin (q : ℚ)
  | pinf
  | ninf
deriving DecidableEq, Repr

/-- One pandas cell in the float-refined model. -/
inductive CellF : Type
  | num (v : FNum)
  | str (s : String)
  | null
deriving DecidableEq, Repr

/-- `pd.to_numeric(·, errors='coerce')` on one float-refined cell; the
parser may now produce an infinity, as `pd.to_numeric` does for "inf". -/
def coerceCellF (parse : String → Option FNum) : CellF → CellF
  | .num v => .num v
  | .str s =>
      match parse s with
      | some v => .num v
      | none => .null
  | .null => .null

/-- Numeric reading of a float-refined cell. -/
def cellNumF? : CellF → Option FNum
  | .num v => some v
  | _ => none

/-- One raw row in the float-refined model. -/
structure RawRowF : Type where
  group : Option String
  metrics : List CellF
deriving DecidableEq, Repr

/-- Numeric coercion applied to every metric cell of a float-refined row. -/
def coerceRowF (parse : String → Option FNum) (r : RawRowF) : RawRowF :=
  ⟨r.group, r.metrics.map (coerceCellF parse)⟩

/-- A float-refined row survives `dropna()` iff its group label is present
and every metric cell is numeric — `dropna` drops `NaN`, not infinities. -/
def rowValidF (r : RawRowF) : Bool :=
  r.group.isSome && r.metrics.all (fun c => (cellNumF? c).isSome)

/-- The cleaning step (lines 118-131) on float-refined rows. -/
def cleanFrameF (parse : String → Option FNum) (rows : List RawRowF) :
    List RawRowF :=
  (rows.map (coerceRowF parse)).filter rowValidF

/-- Bool test that a cell holds a finite numeric value. -/
def isFiniteNum : CellF → Bool
  | .num (.fin _) => true
  | _ => false

/-- The behaviour of `pd.to_numeric` on the single text "inf": it parses
to the positive infinite float, a non-missing value (it is not coerced to
`NaN`).  Any other text is left unparsed by this small parser. -/
def parseInf : String → Option FNum :=
  fun s => if s = "inf" then some FNum.pinf else none

/-! ## Grouped statistics (`school_statistics`, lines 152-166) -/

/-- Insertion of an element into a list, in front of the first element it
is `le`-related to. -/
def insertIntoSorted {α : Type} (le : α → α → Prop) [DecidableRel le] (a : α) :
    List α → List α
  | [] => [a]
  | b :: bs => if le a b then a :: b :: bs else b :: insertIntoSorted le a bs

/-- Insertion sort, the model of pandas sorting (`sort_values`, `median`'s
internal sort). -/
def insertionSort {α : Type} (le : α → α → Prop) [DecidableRel le] :
    List α → List α
  | [] => []
  | a :: as => insertIntoSorted le a (insertionSort le as)

/-- Minimum of a list of rationals (`'min'` aggregation); 0 on the empty
list, which the pipeline never produces. -/
def listMin : List ℚ → ℚ
  | [] => 0
  | x :: xs => xs.foldl min x

/-- Maximum of a list of rationals (`'max'` aggregation). -/
def listMax : List ℚ → ℚ
  | [] => 0
  | x :: xs => xs.foldl max x

/-- Arithmetic mean (`'mean'` aggregation). -/
def listMean (l : List ℚ) : ℚ := l.sum / l.length

/-- pandas `'median'`: middle element of the sorted values, or the average
of the two middle elements when the count is even. -/
def listMedian (l : List ℚ) : ℚ :=
  if l.length % 2 = 1 then (insertionSort (· ≤ ·) l).getD (l.length / 2) 0
  else ((insertionSort (· ≤ ·) l).getD (l.length / 2 - 1) 0 +
    (insertionSort (· ≤ ·) l).getD (l.length / 2) 0) / 2

/-- Sample variance, denominator `n - 1`: the square of pandas `'std'`. -/
def sampleVar (l : List ℚ) : ℚ :=
  (l.map (fun x => (x - listMean l) ^ 2)).sum / (l.length - 1)

/-- pandas `'std'` (squared, see the file header): `NaN` (here `none`)
when fewer than two values are present, else the sample variance. -/
def stdSq (l : List ℚ) : Option ℚ :=
  if l.length < 2 then none else some (sampleVar l)

/-- `.round(2)` on one value: pandas rounds every statistic to two decimal
places for display (pandas rounds half to even, this model half up; the
two differ only at exact midpoints and both are monotone). -/
def round2 (q : ℚ) : ℚ := (round (100 * q) : ℚ) / 100

/-- One row of the `estatisticas_escolas` table (lines 153-160): the group
label and the columns `Média`, `Mediana`, `Mínimo`, `Máximo`,
`Desvio_Padrão` (squared, see header), `Quantidade_Alunos`. -/
structure StatRec : Type where
  escola : String
  media : ℚ
  mediana : ℚ
  minimo : ℚ
  maximo : ℚ
  desvio : Option ℚ
  quantidade : ℕ
deriving DecidableEq, Repr

/-- Distinct group labels in first-occurrence order (see the file header
for why the alphabetical key sort of `groupby` is dropped). -/
def groupKeys (ps : List (String × ℚ)) : List String :=
  (ps.map Prod.fst).dedup

/-- Metric values of one group. -/
def groupVals (ps : List (String × ℚ)) (g : String) : List ℚ :=
  (ps.filter (fun p => p.1 == g)).map Prod.snd

/-- One aggregated row (lines 153-160, with `.round(2)`). -/
def aggRecord (g : String) (vs : List ℚ) : StatRec :=
  ⟨g, round2 (listMean vs), round2 (listMedian vs), round2 (listMin vs),
    round2 (listMax vs), stdSq vs, vs.length⟩

/-- The per-school statistics table: one record per distinct group, sorted
by `Média` descending (line 163, `sort_values('Média', ascending=False)`),
then `reset_index` (line 166), which keeps the rows and turns the group
key into the first column. -/
def estatisticas (ps : List (String × ℚ)) : List StatRec :=
  insertionSort (fun a b => b.media ≤ a.media)
    ((groupKeys ps).map (fun g => aggRecord g (groupVals ps g)))

/-- The displayed table (lines 190-196): rows of the unfiltered table
whose student count reaches the slider minimum and, when the allow-list
multiselect is non-empty, whose school is in the allow-list. -/
def filteredTable (tbl : List StatRec) (minC : ℕ) (allow : List String) :
    List StatRec :=
  tbl.filter (fun r => decide (minC ≤ r.quantidade) &&
    (allow.isEmpty || allow.contains r.escola))

/-- The rows serialised by the CSV download (lines 357-365): the code
serialises `estatisticas_escolas_reset`, the unfiltered table. -/
def exportTable (ps : List (String × ℚ)) : List StatRec := estatisticas ps

/-- The header line written by `to_csv(index=False)` (line 359): the
resolved school column name followed by the aggregate field names of
lines 153-160. -/
def exportHeaders (colEscola : String) : List String :=
  [colEscola, "Média", "Mediana", "Mínimo", "Máximo", "Desvio_Padrão",
    "Quantidade_Alunos"]

/-! ## Correlation helpers (lines 1272-1316) and Pearson r (line 1007) -/

/-- `interpretar_correlacao_simples` (lines 1289-1304). -/
def interpretar_correlacao_simples (r : ℚ) : String :=
  if r ≥ 7/10 then "Correlação positiva forte"
  else if r ≥ 5/10 then "Correlação positiva moderada"
  else if r ≥ 3/10 then "Correlação positiva fraca"
  else if r > -3/10 then "Correlação muito fraca ou nula"
  else if r > -5/10 then "Correlação negativa fraca"
  else if r > -7/10 then "Correlação negativa moderada"
  else "Correlação negativa forte"

/-- `interpretar_correlacao_detalhada` (lines 1272-1287). -/
def interpretar_correlacao_detalhada (r : ℚ) : String :=
  if r ≥ 7/10 then
    "Correlação positiva forte: escolas com mais alunos tendem a ter desempenho significativamente melhor"
  else if r ≥ 5/10 then
    "Correlação positiva moderada: existe uma relação positiva entre tamanho da escola e desempenho"
  else if r ≥ 3/10 then
    "Correlação positiva fraca: leve tendência de escolas maiores terem melhor desempenho"
  else if r > -3/10 then
    "Correlação muito fraca ou nula: praticamente não há relação entre tamanho da escola e desempenho"
  else if r > -5/10 then
    "Correlação negativa fraca: leve tendência de escolas menores terem melhor desempenho"
  else if r > -7/10 then
    "Correlação negativa moderada: escolas menores tendem a ter melhor desempenho"
  else
    "Correlação negativa forte: escolas com menos alunos tendem a ter desempenho significativamente melhor"

/-- `classificar_forca_correlacao` (lines 1306-1316). -/
def classificar_forca_correlacao (r : ℚ) : String :=
  if |r| ≥ 7/10 then "Forte"
  else if |r| ≥ 5/10 then "Moderada"
  else if |r| ≥ 3/10 then "Fraca"
  else "Muito Fraca"

/-- Bool test that an interpretation string reports a positive direction
(it starts with "Correlação positiva"). -/
def dirPositiva (s : String) : Bool :=
  matchesAt "Correlação positiva".toList s.toList

/-- Bool test that an interpretation string reports a negative direction
(it starts with "Correlação negativa"). -/
def dirNegativa (s : String) : Bool :=
  matchesAt "Correlação negativa".toList s.toList

/-- Numerator of the Pearson coefficient between two paired columns:
the sum of products of deviations from the respective means. -/
def covSum (xs ys : List ℚ) : ℚ :=
  ((xs.zip ys).map (fun p => (p.1 - listMean xs) * (p.2 - listMean ys))).sum

/-- Sum of squared deviations of one column from its mean. -/
def sqSum (xs : List ℚ) : ℚ :=
  (xs.map (fun x => (x - listMean xs) ^ 2)).sum

/-- Pearson correlation coefficient between two equal-length columns, as
`DataFrame.corr()` computes it between `Quantidade_Alunos` and a
`Media_*` column (lines 1004-1010): `Σ dx·dy / √(Σ dx² · Σ dy²)`.  The
square root forces the value into `ℝ`; when a column is constant the
denominator is zero and the Lean value is the junk 0 (pandas: `NaN`). -/
noncomputable def pearsonR (xs ys : List ℚ) : ℝ :=
  (covSum xs ys : ℝ) / Real.sqrt ((sqSum xs : ℝ) * (sqSum ys : ℝ))

/-! ## Helper lemmas -/

/-- Head of a filtered list is the first element satisfying the predicate. -/
theorem head?_filter_eq_find? {α : Type} (p : α → Bool) (l : List α) :
    (l.filter p).head? = l.find? p := by
  induction l with
  | nil => rfl
  | cons a l ih =>
    by_cases h : p a
    · simp [List.filter_cons, h, List.find?_cons_of_pos _ h]
    · simp only [List.filter_cons, h, if_neg, Bool.false_eq_true, ite_false,
        List.find?_cons_of_neg _ h, ih]

/-- Characterisation of `find?` as the first match in left-to-right order. -/
theorem find?_eq_some_first {α : Type} (p : α → Bool) (l : List α) (c : α) :
    l.find? p = some c ↔
      p c = true ∧ ∃ l₁ l₂, l = l₁ ++ c :: l₂ ∧ ∀ x ∈ l₁, p x = false := by
  induction l with
  | nil => simp
  | cons a l ih =>
    by_cases h : p a
    · rw [List.find?_cons_of_pos _ h]
      constructor
      · rintro hc
        obtain rfl : a = c := by simpa using hc
        exact ⟨h, [], l, rfl, by simp⟩
      · rintro ⟨hc, l₁, l₂, heq, hall⟩
        cases l₁ with
        | nil =>
          obtain ⟨rfl, -⟩ : a = c ∧ l = l₂ := by simpa using heq
          rfl
        | cons b bs =>
          obtain ⟨rfl, -⟩ : a = b ∧ l = bs ++ c :: l₂ := by simpa using heq
          exact absurd h (by simpa using hall a (by simp))
    · rw [List.find?_cons_of_neg _ h, ih]
      constructor
      · rintro ⟨hc, l₁, l₂, heq, hall⟩
        refine ⟨hc, a :: l₁, l₂, by simp [heq], ?_⟩
        intro x hx
        rcases List.mem_cons.mp hx with rfl | hx
        · simpa using h
        · exact hall x hx
      · rintro ⟨hc, l₁, l₂, heq, hall⟩
        cases l₁ with
        | nil =>
          obtain ⟨rfl, -⟩ : a = c ∧ l = l₂ := by simpa using heq
          exact absurd hc (by simpa using h)
        | cons b bs =>
          obtain ⟨rfl, hl⟩ : a = b ∧ l = bs ++ c :: l₂ := by simpa using heq
          exact ⟨hc, bs, l₂, hl, fun x hx => hall x (List.mem_cons_of_mem _ hx)⟩

/-! ## Claims about the column resolver -/

/-- C2.  For every ordered list of column names and every keyword set, the
resolver selects the first column in original order whose lowercased name
contains some lowercased keyword as a substring (equivalently, it is
`List.find?` of the match predicate), and returns none exactly when no
column matches; in particular the columns
`["Qual a sua escola?", "Total de pontos"]` resolve to
`"Qual a sua escola?"` for the School role (keywords `{"escola"}`) and to
`"Total de pontos"` for the TotalScore role (keywords
`{"total", "pontos"}`). -/
theorem C2_resolver_first_match (columns keywords : List String) :
    resolveRole columns keywords = columns.find? (colMatches keywords) ∧
    (∀ c : String, resolveRole columns keywords = some c ↔
      colMatches keywords c = true ∧
      ∃ l₁ l₂, columns = l₁ ++ c :: l₂ ∧
        ∀ x ∈ l₁, colMatches keywords x = false) ∧
    (resolveRole columns keywords = none ↔
      ∀ c ∈ columns, colMatches keywords c = false) ∧
    resolveRole ["Qual a sua escola?", "Total de pontos"] ["escola"] =
      some "Qual a sua escola?" ∧
    resolveRole ["Qual a sua escola?", "Total de pontos"] ["total", "pontos"] =
      some "Total de pontos" := by
  have hfind : resolveRole columns keywords = columns.find? (colMatches keywords) :=
    head?_filter_eq_find? _ _
  refine ⟨hfind, ?_, ?_, by decide, by decide⟩
  · intro c
    rw [hfind]
    exact find?_eq_some_first _ _ _
  · rw [hfind]
    simp [List.find?_eq_none]

/-- C10.  For every column list without duplicate names and every keyword
list, `find_similar_columns` returns a sublist of the columns (so matches
are listed in original column order), contains no duplicates, and hence
mentions each column name at most once even when several keywords match
the same column (the source's `break`). -/
theorem C10_found_columns_nodup (columns keywords : List String)
    (h : columns.Nodup) :
    (find_similar_columns columns keywords).Sublist columns ∧
    (find_similar_columns columns keywords).Nodup ∧
    ∀ c : String, (find_similar_columns columns keywords).count c ≤ 1 := by
  refine ⟨List.filter_sublist _, List.Nodup.filter _ h, ?_⟩
  exact List.nodup_iff_count_le_one.mp (List.Nodup.filter _ h)

/-- Witness for C10 at a concrete input: both keywords match the same
column, which is still listed only once. -/
theorem C10_found_columns_nodup_witness :
    (find_similar_columns ["Qual a sua escola?", "Total de pontos"]
      ["total", "pontos"]).Sublist ["Qual a sua escola?", "Total de pontos"] ∧
    (find_similar_columns ["Qual a sua escola?", "Total de pontos"]
      ["total", "pontos"]).Nodup ∧
    ∀ c : String, (find_similar_columns ["Qual a sua escola?", "Total de pontos"]
      ["total", "pontos"]).count c ≤ 1 :=
  C10_found_columns_nodup ["Qual a sua escola?", "Total de pontos"]
    ["total", "pontos"] (by decide)

/-! ## Claims about data cleaning -/

/-- C3.  For every parser, input frame, grouping column and metric
columns, cleaning is a total function (it never raises): a metric cell
whose text fails to parse is coerced to the missing marker (and those are
the only cells the coercion sends to the missing marker), and the
reported counts satisfy `rows_after + rows_removed = rows_before`. -/
theorem C3_clean_counts (parse : String → Option ℚ) (rows : List RawRow) :
    (∀ c : Cell, coerceCell parse c = Cell.null ↔
      c = Cell.null ∨ ∃ s, c = Cell.str s ∧ parse s = none) ∧
    rows_after parse rows + rows_removed parse rows = rows_before rows := by
  constructor
  · intro c
    cases c with
    | num q => simp [coerceCell]
    | str s =>
      cases hp : parse s with
      | none => simp [coerceCell, hp]
      | some q => simp [coerceCell, hp]
    | null => simp [coerceCell]
  · have hle : rows_after parse rows ≤ rows_before rows := by
      calc (cleanFrame parse rows).length
          ≤ (rows.map (coerceRow parse)).length := List.length_filter_le _ _
        _ = rows.length := List.length_map _ _
    exact Nat.add_sub_cancel' hle

/-- C4 counterexample.  On the one-row frame whose metric cell is the
text "inf", with the coercion behaving as `pd.to_numeric` does on that
text (it parses to the positive infinite float, not to `NaN`), the
cleaned frame is non-empty and its metric value is *not* finite: the
"no infinity" part of the claim fails. -/
theorem C4_clean_no_missing_counterexample :
    ¬ ∀ r ∈ cleanFrameF parseInf [⟨some "A", [CellF.str "inf"]⟩],
        ∀ c ∈ r.metrics, isFiniteNum c = true := by
  intro h
  have hmem : (⟨some "A", [CellF.num FNum.pinf]⟩ : RawRowF) ∈
      cleanFrameF parseInf [⟨some "A", [CellF.str "inf"]⟩] := by
    simp [cleanFrameF, coerceRowF, coerceCellF, parseInf, rowValidF, cellNumF?]
  have := h _ hmem (CellF.num FNum.pinf) (by simp)
  simp [isFiniteNum] at this

/-- C4 as amended.  Every row of the cleaned frame has a present
(non-missing) group label and only numeric metric values; those values
are moreover finite provided neither the raw frame nor the numeric
parser supplies an infinite value — without that proviso an infinity
(e.g. parsed from the text "inf") survives cleaning, as the
counterexample shows. -/
theorem C4_clean_no_missing_amended (parse : String → Option FNum)
    (rows : List RawRowF) (r : RawRowF) (h : r ∈ cleanFrameF parse rows) :
    (r.group ≠ none ∧ ∀ c ∈ r.metrics, ∃ v : FNum, c = CellF.num v) ∧
    ((∀ s v, parse s = some v → ∃ q : ℚ, v = FNum.fin q) →
      (∀ row ∈ rows, ∀ c ∈ row.metrics, ∀ v : FNum,
        c = CellF.num v → ∃ q : ℚ, v = FNum.fin q) →
      ∀ c ∈ r.metrics, isFiniteNum c = true) := by
  obtain ⟨hmap, hvalid⟩ := List.mem_filter.mp h
  simp only [rowValidF, Bool.and_eq_true, List.all_eq_true] at hvalid
  obtain ⟨hg, hm⟩ := hvalid
  obtain ⟨row₀, hrow₀, heq⟩ := List.mem_map.mp hmap
  have hmet : r.metrics = row₀.metrics.map (coerceCellF parse) := by
    rw [← heq]
    rfl
  constructor
  · constructor
    · intro hnone
      rw [hnone] at hg
      simp at hg
    · intro c hc
      have := hm c hc
      cases c with
      | num v => exact ⟨v, rfl⟩
      | str s => simp [cellNumF?] at this
      | null => simp [cellNumF?] at this
  · intro hparse hrows c hc
    have hval := hm c hc
    rw [hmet] at hc
    obtain ⟨c₀, hc₀, hcoerce⟩ := List.mem_map.mp hc
    cases c₀ with
    | num v =>
      obtain ⟨q, rfl⟩ := hrows row₀ hrow₀ (CellF.num v) hc₀ v rfl
      rw [← hcoerce]
      simp [coerceCellF, isFiniteNum]
    | str s =>
      cases hp : parse s with
      | none =>
        rw [← hcoerce] at hval
        simp [coerceCellF, hp, cellNumF?] at hval
      | some v =>
        obtain ⟨q, rfl⟩ := hparse s v hp
        rw [← hcoerce]
        simp [coerceCellF, hp, isFiniteNum]
    | null =>
      rw [← hcoerce] at hval
      simp [coerceCellF, cellNumF?] at hval

/-- Witness for the amended C4: a frame with one finite valid row, with
the membership and both finiteness provisos discharged at the concrete
metric cell. -/
theorem C4_clean_no_missing_amended_witness :
    isFiniteNum (CellF.num (FNum.fin 1)) = true :=
  (C4_clean_no_missing_amended (fun _ => none)
    [⟨some "A", [CellF.num (FNum.fin 1)]⟩] ⟨some "A", [CellF.num (FNum.fin 1)]⟩
    (by simp [cleanFrameF, coerceRowF, coerceCellF, rowValidF, cellNumF?])).2
    (by intro s v hv; simp at hv)
    (by
      intro row hrow c hc v hv
      simp only [List.mem_singleton] at hrow
      subst hrow
      simp only [List.mem_singleton] at hc
      subst hc
      exact ⟨1, by injection hv.symm⟩)
    (CellF.num (FNum.fin 1)) (by simp)

/-! ## Claims about the correlation classifier -/

/-- C7.  For every coefficient `r` with `|r| ≤ 1` the strength
classification (source strings: Forte = Strong, Moderada = Moderate,
Fraca = Weak, Muito Fraca = Negligible) returns "Forte" iff `|r| ≥ 0.7`,
"Moderada" iff `0.5 ≤ |r| < 0.7`, "Fraca" iff `0.3 ≤ |r| < 0.5` and
"Muito Fraca" iff `|r| < 0.3`; and group sizes `[10,20,30]` with metric
means `[5,6,7]` give Pearson `r = 1`, classified "Forte" with positive
direction ("Correlação positiva forte"). -/
theorem C7_strength_thresholds (r : ℚ) (h : |r| ≤ 1) :
    (classificar_forca_correlacao r = "Forte" ↔ 7/10 ≤ |r|) ∧
    (classificar_forca_correlacao r = "Moderada" ↔ 5/10 ≤ |r| ∧ |r| < 7/10) ∧
    (classificar_forca_correlacao r = "Fraca" ↔ 3/10 ≤ |r| ∧ |r| < 5/10) ∧
    (classificar_forca_correlacao r = "Muito Fraca" ↔ |r| < 3/10) ∧
    pearsonR [10, 20, 30] [5, 6, 7] = 1 ∧
    classificar_forca_correlacao 1 = "Forte" ∧
    interpretar_correlacao_simples 1 = "Correlação positiva forte" := by
  have hc : covSum [10, 20, 30] [5, 6, 7] = 20 := by
    norm_num [covSum, listMean, List.zip_cons_cons]
  have hx : sqSum [10, 20, 30] = 200 := by norm_num [sqSum, listMean]
  have hy : sqSum [5, 6, 7] = 2 := by norm_num [sqSum, listMean]
  have hp : pearsonR [10, 20, 30] [5, 6, 7] = 1 := by
    unfold pearsonR
    rw [hc, hx, hy]
    push_cast
    rw [show (200 : ℝ) * 2 = 20 ^ 2 by norm_num,
      Real.sqrt_sq (by norm_num : (0 : ℝ) ≤ 20)]
    norm_num
  refine ⟨?_, ?_, ?_, ?_, hp, ?_, ?_⟩
  · unfold classificar_forca_correlacao
    split_ifs with h1 h2 h3 <;> simp_all <;> intros <;>
      first | linarith | (constructor <;> linarith)
  · unfold classificar_forca_correlacao
    split_ifs with h1 h2 h3 <;> simp_all <;> intros <;>
      first | linarith | (constructor <;> linarith)
  · unfold classificar_forca_correlacao
    split_ifs with h1 h2 h3 <;> simp_all <;> intros <;>
      first | linarith | (constructor <;> linarith)
  · unfold classificar_forca_correlacao
    split_ifs with h1 h2 h3 <;> simp_all <;> intros <;>
      first | linarith | (constructor <;> linarith)
  · norm_num [classificar_forca_correlacao]
  · norm_num [interpretar_correlacao_simples]

/-- Witness for C7 at `r = 1`. -/
theorem C7_strength_thresholds_witness :
    classificar_forca_correlacao 1 = "Forte" ↔ 7/10 ≤ |(1 : ℚ)| :=
  (C7_strength_thresholds 1 (by norm_num)).1

/-- C8.  For every `r` in the open band `(-0.3, 0.3)` both interpretation
helpers report the correlation as "muito fraca ou nula"
(negligible/none), regardless of sign; outside the band the reported
direction is positive exactly when `r > 0` and negative otherwise. -/
theorem C8_direction_band (r : ℚ) :
    ((-3/10 < r ∧ r < 3/10) →
      interpretar_correlacao_simples r = "Correlação muito fraca ou nula" ∧
      dirPositiva (interpretar_correlacao_detalhada r) = false ∧
      dirNegativa (interpretar_correlacao_detalhada r) = false ∧
      interpretar_correlacao_detalhada r =
        "Correlação muito fraca ou nula: praticamente não há relação entre tamanho da escola e desempenho") ∧
    (¬(-3/10 < r ∧ r < 3/10) →
      (0 < r →
        dirPositiva (interpretar_correlacao_simples r) = true ∧
        dirPositiva (interpretar_correlacao_detalhada r) = true) ∧
      (¬0 < r →
        dirNegativa (interpretar_correlacao_simples r) = true ∧
        dirNegativa (interpretar_correlacao_detalhada r) = true)) := by
  constructor
  · rintro ⟨hl, hr⟩
    refine ⟨?_, ?_, ?_, ?_⟩ <;>
      · simp only [interpretar_correlacao_simples, interpretar_correlacao_detalhada]
        split_ifs <;> first | rfl | linarith
  · intro hband
    constructor
    · intro hpos
      have h3 : 3/10 ≤ r := by
        by_contra hcon
        push_neg at hcon
        exact hband ⟨by linarith, hcon⟩
      constructor <;>
        · simp only [interpretar_correlacao_simples, interpretar_correlacao_detalhada]
          split_ifs <;> first | decide | linarith
    · intro hneg
      push_neg at hneg
      have h3 : r ≤ -3/10 := by
        by_contra hcon
        push_neg at hcon
        exact hband ⟨hcon, by linarith⟩
      constructor <;>
        · simp only [interpretar_correlacao_simples, interpretar_correlacao_detalhada]
          split_ifs <;> first | decide | linarith

/-- Witness for C8 at `r = 1/10` (inside the band) applied through the
theorem. -/
theorem C8_direction_band_witness :
    interpretar_correlacao_simples (1/10) = "Correlação muito fraca ou nula" :=
  ((C8_direction_band (1/10)).1 (by norm_num)).1

/-! ## Claim about Pearson invariance -/

/-- Sum of an affine image of a list. -/
theorem sum_map_affine (a b : ℚ) (l : List ℚ) :
    (l.map (fun y => a * y + b)).sum = a * l.sum + b * l.length := by
  induction l with
  | nil => simp
  | cons x xs ih =>
    simp only [List.map_cons, List.sum_cons, ih, List.length_cons]
    push_cast
    ring

/-- Mean of an affine image of a non-empty list. -/
theorem listMean_affine (a b : ℚ) (l : List ℚ) (hl : l ≠ []) :
    listMean (l.map (fun y => a * y + b)) = a * listMean l + b := by
  have hn : (l.length : ℚ) ≠ 0 := by
    have := List.length_pos.mpr hl
    positivity
  unfold listMean
  rw [List.length_map, sum_map_affine]
  field_simp

/-- The Pearson numerator scales by `a` under `y ↦ a·y + b`. -/
theorem covSum_affine (a b : ℚ) (xs ys : List ℚ) (hy : ys ≠ []) :
    covSum xs (ys.map (fun y => a * y + b)) = a * covSum xs ys := by
  unfold covSum
  rw [listMean_affine a b ys hy, List.zip_map_right, List.map_map,
    ← List.sum_map_mul_left]
  congr 1
  apply List.map_congr_left
  intro p _
  simp only [Function.comp_apply, Prod.map_fst, Prod.map_snd, id_eq]
  ring

/-- The squared-deviation sum scales by `a²` under `y ↦ a·y + b`. -/
theorem sqSum_affine (a b : ℚ) (l : List ℚ) (hl : l ≠ []) :
    sqSum (l.map (fun y => a * y + b)) = a ^ 2 * sqSum l := by
  unfold sqSum
  rw [listMean_affine a b l hl, List.map_map, ← List.sum_map_mul_left]
  congr 1
  apply List.map_congr_left
  intro x _
  simp only [Function.comp_apply]
  ring

/-- C9.  For every pair of equal-length columns with at least two entries
(two groups), the Pearson coefficient between group sizes and group-level
metric means is unchanged when every metric mean is rescaled by the same
positive linear transformation `y ↦ a·y + b`, `a > 0`. -/
theorem C9_pearson_affine_invariant (xs ys : List ℚ) (a b : ℚ)
    (hlen2 : 2 ≤ xs.length) (hlen : ys.length = xs.length) (ha : 0 < a) :
    pearsonR xs (ys.map (fun y => a * y + b)) = pearsonR xs ys := by
  have hy : ys ≠ [] := by
    intro hnil
    rw [hnil] at hlen
    simp only [List.length_nil] at hlen
    omega
  have haR : (0 : ℝ) < (a : ℝ) := by exact_mod_cast ha
  unfold pearsonR
  rw [covSum_affine a b xs ys hy, sqSum_affine a b ys hy]
  push_cast
  rw [show (sqSum xs : ℝ) * ((a : ℝ) ^ 2 * (sqSum ys : ℝ)) =
      (a : ℝ) ^ 2 * ((sqSum xs : ℝ) * (sqSum ys : ℝ)) by ring]
  rw [Real.sqrt_mul (sq_nonneg _), Real.sqrt_sq haR.le]
  exact mul_div_mul_left _ _ haR.ne'

/-- Witness for C9: doubling and shifting the metric means `[4, 6]`
against the sizes `[1, 2]`. -/
theorem C9_pearson_affine_invariant_witness :
    pearsonR [1, 2] (List.map (fun y => 2 * y + 3) [4, 6]) =
      pearsonR [1, 2] [4, 6] :=
  C9_pearson_affine_invariant [1, 2] [4, 6] 2 3 (by decide) (by decide)
    (by norm_num)

/-! ## Helper lemmas about the grouped aggregation -/

theorem foldlMin_le_init (x : ℚ) (xs : List ℚ) : xs.foldl min x ≤ x := by
  induction xs generalizing x with
  | nil => simp
  | cons y ys ih =>
    calc List.foldl min x (y :: ys) = ys.foldl min (min x y) := rfl
      _ ≤ min x y := ih _
      _ ≤ x := min_le_left _ _

theorem foldlMin_le_mem (x a : ℚ) (xs : List ℚ) (h : a ∈ xs) :
    xs.foldl min x ≤ a := by
  induction xs generalizing x with
  | nil => simp at h
  | cons y ys ih =>
    rcases List.mem_cons.mp h with rfl | h
    · calc List.foldl min x (a :: ys) = ys.foldl min (min x a) := rfl
        _ ≤ min x a := foldlMin_le_init _ _
        _ ≤ a := min_le_right _ _
    · exact ih (min x y) h

theorem init_le_foldlMax (x : ℚ) (xs : List ℚ) : x ≤ xs.foldl max x := by
  induction xs generalizing x with
  | nil => simp
  | cons y ys ih =>
    calc x ≤ max x y := le_max_left _ _
      _ ≤ ys.foldl max (max x y) := ih _
      _ = List.foldl max x (y :: ys) := rfl

theorem mem_le_foldlMax (x a : ℚ) (xs : List ℚ) (h : a ∈ xs) :
    a ≤ xs.foldl max x := by
  induction xs generalizing x with
  | nil => simp at h
  | cons y ys ih =>
    rcases List.mem_cons.mp h with rfl | h
    · calc a ≤ max x a := le_max_right _ _
        _ ≤ ys.foldl max (max x a) := init_le_foldlMax _ _
        _ = List.foldl max x (a :: ys) := rfl
    · exact ih (max x y) h

/-- The reported `Mínimo` is a lower bound of the group's values. -/
theorem listMin_le_mem {l : List ℚ} {a : ℚ} (h : a ∈ l) : listMin l ≤ a := by
  cases l with
  | nil => simp at h
  | cons x xs =>
    rcases List.mem_cons.mp h with rfl | h
    · exact foldlMin_le_init _ _
    · exact foldlMin_le_mem _ _ _ h

/-- The reported `Máximo` is an upper bound of the group's values. -/
theorem mem_le_listMax {l : List ℚ} {a : ℚ} (h : a ∈ l) : a ≤ listMax l := by
  cases l with
  | nil => simp at h
  | cons x xs =>
    rcases List.mem_cons.mp h with rfl | h
    · exact init_le_foldlMax _ _
    · exact mem_le_foldlMax _ _ _ h

theorem listMin_le_listMean (l : List ℚ) (hl : l ≠ []) :
    listMin l ≤ listMean l := by
  have hn : 0 < l.length := List.length_pos.mpr hl
  have hnQ : (0 : ℚ) < l.length := by exact_mod_cast hn
  have hsum : (l.length : ℚ) * listMin l ≤ l.sum := by
    have := List.card_nsmul_le_sum l (listMin l) (fun x hx => listMin_le_mem hx)
    simpa [nsmul_eq_mul] using this
  unfold listMean
  rw [le_div_iff hnQ]
  nlinarith [hsum]

theorem listMean_le_listMax (l : List ℚ) (hl : l ≠ []) :
    listMean l ≤ listMax l := by
  have hn : 0 < l.length := List.length_pos.mpr hl
  have hnQ : (0 : ℚ) < l.length := by exact_mod_cast hn
  have hsum : l.sum ≤ (l.length : ℚ) * listMax l := by
    have := List.sum_le_card_nsmul l (listMax l) (fun x hx => mem_le_listMax hx)
    simpa [nsmul_eq_mul] using this
  unfold listMean
  rw [div_le_iff hnQ]
  nlinarith [hsum]

theorem insertIntoSorted_perm {α : Type} (le : α → α → Prop) [DecidableRel le]
    (a : α) (l : List α) : (insertIntoSorted le a l).Perm (a :: l) := by
  induction l with
  | nil => exact List.Perm.refl _
  | cons b bs ih =>
    unfold insertIntoSorted
    split_ifs
    · exact List.Perm.refl _
    · exact (ih.cons b).trans (List.Perm.swap a b bs)

theorem insertionSort_perm {α : Type} (le : α → α → Prop) [DecidableRel le]
    (l : List α) : (insertionSort le l).Perm l := by
  induction l with
  | nil => exact List.Perm.refl _
  | cons a as ih =>
    unfold insertionSort
    exact (insertIntoSorted_perm le a _).trans (ih.cons a)

/-- The median of a non-empty list lies between its minimum and maximum. -/
theorem listMedian_bounds (l : List ℚ) (hl : l ≠ []) :
    listMin l ≤ listMedian l ∧ listMedian l ≤ listMax l := by
  have hperm := insertionSort_perm (α := ℚ) (· ≤ ·) l
  have hlen : (insertionSort (· ≤ ·) l).length = l.length := hperm.length_eq
  have hn : 0 < l.length := List.length_pos.mpr hl
  have hidx : ∀ i, i < l.length →
      listMin l ≤ (insertionSort (· ≤ ·) l).getD i 0 ∧
      (insertionSort (· ≤ ·) l).getD i 0 ≤ listMax l := by
    intro i hi
    have hi' : i < (insertionSort (· ≤ ·) l).length := by omega
    rw [List.getD_eq_getElem _ 0 hi']
    have hm : (insertionSort (· ≤ ·) l)[i] ∈ l :=
      hperm.mem_iff.mp (List.getElem_mem hi')
    exact ⟨listMin_le_mem hm, mem_le_listMax hm⟩
  unfold listMedian
  split_ifs with hpar
  · exact hidx (l.length / 2) (by omega)
  · have h2 : 2 ≤ l.length := by omega
    obtain ⟨ha1, ha2⟩ := hidx (l.length / 2 - 1) (by omega)
    obtain ⟨hb1, hb2⟩ := hidx (l.length / 2) (by omega)
    constructor <;> [linarith; linarith]

/-- Rounding to two decimal places is monotone. -/
theorem round2_mono {a b : ℚ} (h : a ≤ b) : round2 a ≤ round2 b := by
  unfold round2
  have hr : round (100 * a) ≤ round (100 * b) := by
    rw [round_eq, round_eq]
    exact Int.floor_mono (by linarith)
  have hrQ : ((round (100 * a) : ℤ) : ℚ) ≤ ((round (100 * b) : ℤ) : ℚ) := by
    exact_mod_cast hr
  linarith

/-- Rounding to two decimal places fixes integers. -/
theorem round2_int (n : ℤ) : round2 (n : ℚ) = n := by
  unfold round2
  rw [show (100 : ℚ) * (n : ℚ) = ((100 * n : ℤ) : ℚ) by push_cast; ring,
    round_intCast]
  push_cast
  exact mul_div_cancel_left₀ _ (by norm_num)

/-- Every row of the statistics table is the aggregate of a non-empty
group of values. -/
theorem mem_estatisticas (ps : List (String × ℚ)) (rec : StatRec)
    (h : rec ∈ estatisticas ps) :
    ∃ g, g ∈ groupKeys ps ∧ rec = aggRecord g (groupVals ps g) ∧
      groupVals ps g ≠ [] := by
  unfold estatisticas at h
  have h' := (insertionSort_perm _ _).mem_iff.mp h
  obtain ⟨g, hg, hrec⟩ := List.mem_map.mp h'
  refine ⟨g, hg, hrec.symm, ?_⟩
  have hg' : g ∈ ps.map Prod.fst := List.mem_dedup.mp hg
  obtain ⟨p, hp, hpg⟩ := List.mem_map.mp hg'
  intro hempty
  have hval : p.2 ∈ groupVals ps g := by
    unfold groupVals
    exact List.mem_map.mpr ⟨p,
      List.mem_filter.mpr ⟨hp, beq_iff_eq.mpr hpg⟩, rfl⟩
  rw [hempty] at hval
  simp at hval

/-! ## Claims about the statistics table -/

/-- C5.  Every emitted Group Statistics Record aggregates a non-empty
group: its count is at least 1 (groups with zero valid rows are never
emitted), and its (rounded) statistics satisfy `min ≤ median ≤ max` and
`min ≤ mean ≤ max`. -/
theorem C5_record_invariants (ps : List (String × ℚ)) (rec : StatRec)
    (h : rec ∈ estatisticas ps) :
    1 ≤ rec.quantidade ∧
    rec.minimo ≤ rec.mediana ∧ rec.mediana ≤ rec.maximo ∧
    rec.minimo ≤ rec.media ∧ rec.media ≤ rec.maximo := by
  obtain ⟨g, -, rfl, hne⟩ := mem_estatisticas ps rec h
  obtain ⟨hm1, hm2⟩ := listMedian_bounds (groupVals ps g) hne
  exact ⟨List.length_pos.mpr hne, round2_mono hm1, round2_mono hm2,
    round2_mono (listMin_le_listMean _ hne),
    round2_mono (listMean_le_listMax _ hne)⟩

/-- Witness for C5 on the one-row frame `[("A", 1)]`. -/
theorem C5_record_invariants_witness :
    1 ≤ (aggRecord "A" (groupVals [("A", 1)] "A")).quantidade ∧
    (aggRecord "A" (groupVals [("A", 1)] "A")).minimo ≤
      (aggRecord "A" (groupVals [("A", 1)] "A")).mediana ∧
    (aggRecord "A" (groupVals [("A", 1)] "A")).mediana ≤
      (aggRecord "A" (groupVals [("A", 1)] "A")).maximo ∧
    (aggRecord "A" (groupVals [("A", 1)] "A")).minimo ≤
      (aggRecord "A" (groupVals [("A", 1)] "A")).media ∧
    (aggRecord "A" (groupVals [("A", 1)] "A")).media ≤
      (aggRecord "A" (groupVals [("A", 1)] "A")).maximo :=
  C5_record_invariants [("A", 1)] (aggRecord "A" (groupVals [("A", 1)] "A"))
    (by simp [estatisticas, groupKeys, groupVals, insertionSort,
      insertIntoSorted])

/-- C6.  The `Desvio_Padrão` column (the sample standard deviation,
denominator `n - 1`; stored squared here) is undefined exactly when the
group's count is 1; and on the frame with group A values `[10,20,30]` and
group B values `[5]` the table is: A with mean 20, median 20, min 10,
max 30, squared std 100 (std 10, the `n - 1` sample value), count 3; and
B with mean 5, undefined std, count 1. -/
theorem C6_sample_std (ps : List (String × ℚ)) (rec : StatRec)
    (h : rec ∈ estatisticas ps) :
    (rec.desvio = none ↔ rec.quantidade = 1) ∧
    estatisticas [("A", 10), ("A", 20), ("A", 30), ("B", 5)] =
      [⟨"A", 20, 20, 10, 30, some 100, 3⟩, ⟨"B", 5, 5, 5, 5, none, 1⟩] := by
  obtain ⟨g, -, rfl, hne⟩ := mem_estatisticas ps rec h
  have hn1 : 1 ≤ (groupVals ps g).length := List.length_pos.mpr hne
  constructor
  · show stdSq (groupVals ps g) = none ↔ (groupVals ps g).length = 1
    unfold stdSq
    split_ifs with hlt
    · simp
      omega
    · simp
      omega
  · have r5 : round2 (5 : ℚ) = 5 := by exact_mod_cast round2_int 5
    have r10 : round2 (10 : ℚ) = 10 := by exact_mod_cast round2_int 10
    have r20 : round2 (20 : ℚ) = 20 := by exact_mod_cast round2_int 20
    have r30 : round2 (30 : ℚ) = 30 := by exact_mod_cast round2_int 30
    have hkeys : groupKeys [("A", 10), ("A", 20), ("A", 30), ("B", 5)] =
        ["A", "B"] := by
      simp [groupKeys, List.dedup_cons_of_mem, List.dedup_cons_of_not_mem]
    have hvA : groupVals [("A", 10), ("A", 20), ("A", 30), ("B", 5)] "A" =
        [10, 20, 30] := by
      simp [groupVals]
    have hvB : groupVals [("A", 10), ("A", 20), ("A", 30), ("B", 5)] "B" =
        [5] := by
      simp [groupVals]
    have haggA : aggRecord "A" [10, 20, 30] =
        ⟨"A", 20, 20, 10, 30, some 100, 3⟩ := by
      unfold aggRecord
      norm_num [listMean, listMedian, listMin, listMax, stdSq, sampleVar,
        insertionSort, insertIntoSorted, min_def, max_def,
        List.getD_cons_succ, List.getD_cons_zero, r10, r20, r30]
    have haggB : aggRecord "B" [5] = ⟨"B", 5, 5, 5, 5, none, 1⟩ := by
      unfold aggRecord
      norm_num [listMean, listMedian, listMin, listMax, stdSq, sampleVar,
        insertionSort, insertIntoSorted, min_def, max_def,
        List.getD_cons_succ, List.getD_cons_zero, r5]
    unfold estatisticas
    rw [hkeys]
    simp only [List.map_cons, List.map_nil]
    rw [hvA, hvB, haggA, haggB]
    norm_num [insertionSort, insertIntoSorted]

/-- Witness for C6 on the one-row frame `[("B", 7)]`. -/
theorem C6_sample_std_witness :
    ((aggRecord "B" (groupVals [("B", 7)] "B")).desvio = none ↔
      (aggRecord "B" (groupVals [("B", 7)] "B")).quantidade = 1) ∧
    estatisticas [("A", 10), ("A", 20), ("A", 30), ("B", 5)] =
      [⟨"A", 20, 20, 10, 30, some 100, 3⟩, ⟨"B", 5, 5, 5, 5, none, 1⟩] :=
  C6_sample_std [("B", 7)] (aggRecord "B" (groupVals [("B", 7)] "B"))
    (by simp [estatisticas, groupKeys, groupVals, insertionSort,
      insertIntoSorted])

/-- C1 counterexample.  On the frame `[("A",1),("A",3),("B",5)]` with
minimum-count filter 2 and empty allow-list, the displayed filtered table
(one row) differs from the exported table (both rows): the export
serialises the unfiltered `estatisticas_escolas_reset` (line 359), not
the filtered `estatisticas_filtradas` (line 191). -/
theorem C1_export_counterexample :
    filteredTable (exportTable [("A", 1), ("A", 3), ("B", 5)]) 2 [] ≠
      exportTable [("A", 1), ("A", 3), ("B", 5)] := by
  have r1 : round2 (1 : ℚ) = 1 := by exact_mod_cast round2_int 1
  have r2 : round2 (2 : ℚ) = 2 := by exact_mod_cast round2_int 2
  have r3 : round2 (3 : ℚ) = 3 := by exact_mod_cast round2_int 3
  have r5 : round2 (5 : ℚ) = 5 := by exact_mod_cast round2_int 5
  have htab : exportTable [("A", 1), ("A", 3), ("B", 5)] =
      [⟨"B", 5, 5, 5, 5, none, 1⟩, ⟨"A", 2, 2, 1, 3, some 2, 2⟩] := by
    have hkeys : groupKeys [("A", 1), ("A", 3), ("B", 5)] = ["A", "B"] := by
      simp [groupKeys, List.dedup_cons_of_mem, List.dedup_cons_of_not_mem]
    have hvA : groupVals [("A", 1), ("A", 3), ("B", 5)] "A" = [1, 3] := by
      simp [groupVals]
    have hvB : groupVals [("A", 1), ("A", 3), ("B", 5)] "B" = [5] := by
      simp [groupVals]
    have haggA : aggRecord "A" [1, 3] = ⟨"A", 2, 2, 1, 3, some 2, 2⟩ := by
      unfold aggRecord
      norm_num [listMean, listMedian, listMin, listMax, stdSq, sampleVar,
        insertionSort, insertIntoSorted, min_def, max_def,
        List.getD_cons_succ, List.getD_cons_zero, r1, r2, r3]
    have haggB : aggRecord "B" [5] = ⟨"B", 5, 5, 5, 5, none, 1⟩ := by
      unfold aggRecord
      norm_num [listMean, listMedian, listMin, listMax, stdSq, sampleVar,
        insertionSort, insertIntoSorted, min_def, max_def,
        List.getD_cons_succ, List.getD_cons_zero, r5]
    unfold exportTable estatisticas
    rw [hkeys]
    simp only [List.map_cons, List.map_nil]
    rw [hvA, hvB, haggA, haggB]
    norm_num [insertionSort, insertIntoSorted]
  rw [htab]
  have hfil : filteredTable
      [⟨"B", 5, 5, 5, 5, none, 1⟩, ⟨"A", 2, 2, 1, 3, some 2, 2⟩] 2 [] =
      [⟨"A", 2, 2, 1, 3, some 2, 2⟩] := by
    simp [filteredTable]
  rw [hfil]
  intro heq
  simpa using congrArg List.length heq

/-- Propositional reading of one row's filter condition (line 191-193). -/
theorem filterCond_iff (minC : ℕ) (allow : List String) (rec : StatRec) :
    (decide (minC ≤ rec.quantidade) &&
      (allow.isEmpty || allow.contains rec.escola)) = true ↔
      minC ≤ rec.quantidade ∧ (allow = [] ∨ rec.escola ∈ allow) := by
  cases allow with
  | nil => simp
  | cons a as => simp

/-- C1 as amended.  The CSV export always serialises the unfiltered
statistics table; for every setting of the minimum-count filter and
group allow-list, it equals the displayed filtered table if and only if
the filter retains every row (every record meets the minimum count, and
the allow-list is empty or contains every listed school) — so the export
differs from the display exactly when the filter removes some row. -/
theorem C1_export_amended (ps : List (String × ℚ)) (minC : ℕ)
    (allow : List String) :
    exportTable ps = estatisticas ps ∧
    (filteredTable (exportTable ps) minC allow = exportTable ps ↔
      ∀ rec ∈ estatisticas ps, minC ≤ rec.quantidade ∧
        (allow = [] ∨ rec.escola ∈ allow)) := by
  refine ⟨rfl, ?_⟩
  unfold exportTable filteredTable
  rw [List.filter_eq_self]
  exact forall_congr' fun rec => imp_congr_right fun _ =>
    filterCond_iff minC allow rec

end Saego
